import Mathlib

/-!
Verification development for the Data-Matching and Weighted-Average repository
(`src/tasks.py`).  The Python module provides two operations over CSV-shaped
text: `task1` (exact-match lookup of the `value` column by key columns) and
`task2` (parity-weighted average over the first match of each query), sharing
a process-wide parse cache `_cache`.

Modelling conventions:
* Python strings are `String`; a possibly-`None` Python value is `Option`.
* A parsed row (a Python dict produced by `csv.DictReader` plus cleaning) is an
  association list from column name to field value; the field is
  `Option String` because `DictReader` pads short data rows with `None`
  (`restval`), which the cleaning comprehension preserves.
* A data row with more fields than the header makes `DictReader` collect the
  extras in a list under the `restkey`; the cleaning comprehension then calls
  `.strip()` on that list and raises.  This is the `Err.malformedRow` outcome.
* CSV text is split at newline characters; a trailing newline produces no row
  and blank lines are skipped by `DictReader`, both modelled in `csvLines` /
  `dataFieldRows`.  Fields are split at every comma, which agrees with the
  `csv` module on inputs that do not quote embedded delimiters (quoting of
  embedded commas or newlines is not modelled; the repository's tables do not
  use it).
* Python iterates `set` objects in an unspecified order.  The model iterates
  key sets in list order (query order for `task1`, header order for `task2`);
  on runs that raise no exception the result is order-independent, and the
  error theorems below only use inputs where every order raises.
* The arbitrary-precision Python integers are `Int`; `val % 2` matches
  `Int.emod` for the positive modulus 2.
* The final `f"{total_weighted_value / total_weight:.1f}"` divides the two
  ints as an IEEE binary64 double and formats that double.  This is modelled
  exactly in integer arithmetic: `divDouble` computes the correctly rounded
  (nearest, ties to even) 53-bit mantissa and binary exponent of the
  quotient — the same correctly rounded result CPython's exact long-by-long
  true division produces — and `floatFixed1` then rounds the double's exact
  dyadic value to one fractional digit, again ties to even, as CPython's
  fixed-point float formatting does; a quotient whose rounded magnitude
  reaches `2^1024` is the `OverflowError` CPython raises for int/int
  division.  Quotients with magnitude below `2^-1022` are kept at 53-bit
  precision instead of the narrower subnormal precision: every such value is
  far below 0.05, so the one-decimal rendering (`"0.0"` carrying the
  quotient's sign, `"-0.0"` for a negative quotient, as Python prints) is
  unaffected.  The spec-side `exactFixed1` instead renders the exact
  rational quotient to one decimal; the two differ on quotients that need
  more than 53 significant bits and on non-dyadic ties such as 60/400 =
  0.15, which the C2 counterexample and `floatFixed1_tie` exhibit.
-/

namespace Spec2Proof

/-- Decidable equality of `Except` results, used to state and check the
concrete scenarios. -/
instance {ε α : Type} [DecidableEq ε] [DecidableEq α] : DecidableEq (Except ε α) := fun x y =>
  match x, y with
  | .error a, .error b =>
    if h : a = b then .isTrue (by rw [h]) else .isFalse (by simp [h])
  | .ok a, .ok b =>
    if h : a = b then .isTrue (by rw [h]) else .isFalse (by simp [h])
  | .error _, .ok _ => .isFalse (by simp)
  | .ok _, .error _ => .isFalse (by simp)

/-- A field of a parsed row: `some s` for a string, `none` for Python `None`. -/
abbrev Field := Option String

/-- One parsed row: association list from column name to field value. -/
abbrev Row := List (String × Field)

/-- Errors raised by the Python code, by call site:
`malformedRow` is the `AttributeError` from cleaning the restkey list of an
over-long data row, `keyMismatch` is `Exception('Key mismatch')` in `task1`,
`keyNotFound k` is a `KeyError` from a dict subscript, `valueFormat` is the
`ValueError`/`TypeError` from `int(row['value'])` in `task2`, and
`overflowError` is the `OverflowError` from an int/int true division whose
quotient exceeds the double range. -/
inductive Err where
  | malformedRow
  | keyMismatch
  | keyNotFound (k : String)
  | valueFormat
  | overflowError
deriving DecidableEq, Repr

/-- Association-list lookup keyed on the first component; Python dict access
`d[k]` succeeds exactly when the result is `some`. -/
def alookup {β : Type} : List (String × β) → String → Option β
  | [], _ => none
  | p :: rest, k => if p.1 = k then some p.2 else alookup rest k

/-- Split a character list at every occurrence of `c` (like `str.split`). -/
def splitOnChar (c : Char) : List Char → List (List Char)
  | [] => [[]]
  | x :: xs =>
    match splitOnChar c xs with
    | [] => if x == c then [[], [x]] else [[x]]
    | g :: gs => if x == c then [] :: g :: gs else (x :: g) :: gs

/-- Drop characters satisfying `p` from both ends (Python `str.strip`). -/
def stripEnds (p : Char → Bool) (cs : List Char) : List Char :=
  ((cs.dropWhile p).reverse.dropWhile p).reverse

/-- The whitespace characters stripped by Python `str.strip()` (ASCII range). -/
def pyWhitespace (c : Char) : Bool :=
  c == ' ' || c == '\t' || c == '\n' || c == '\r' ||
    c == Char.ofNat 11 || c == Char.ofNat 12

/-- The characters stripped by `.strip("'\"")`: apostrophe (39) and double
quote (34). -/
def quoteChar (c : Char) : Bool :=
  c == Char.ofNat 39 || c == Char.ofNat 34

/-- Field normalization `v.strip().strip("'\"")`: whitespace first, then any
leading/trailing quote characters. -/
def cleanString (s : String) : String :=
  String.mk (stripEnds quoteChar (stripEnds pyWhitespace s.data))

/-- The lines the `csv` reader sees: split at newlines; the split artifact
after a trailing newline (or of empty text) yields no line. -/
def csvLines (text : String) : List String :=
  let ls := (splitOnChar '\n' text.data).map String.mk
  if ls.getLast? = some "" then ls.dropLast else ls

/-- Comma-split of one line into its raw fields. -/
def fieldsOfLine (l : String) : List String :=
  (splitOnChar ',' l.data).map String.mk

/-- The header: fields of the first line; a blank first line gives the empty
header (`DictReader.fieldnames` of a blank row). -/
def headerFields (text : String) : List String :=
  match csvLines text with
  | [] => []
  | h :: _ => if h = "" then [] else fieldsOfLine h

/-- Raw fields of every data line; blank lines are skipped by `DictReader`. -/
def dataFieldRows (text : String) : List (List String) :=
  (csvLines text).drop 1 |>.filterMap fun l =>
    if l = "" then none else some (fieldsOfLine l)

/-- Build one cleaned row from the header and a data line's fields: matched
fields are cleaned, missing trailing columns become `none` (the preserved
`restval = None`).  The caller rejects over-long field lists. -/
def makeRow : List String → List String → Row
  | [], _ => []
  | h :: hs, [] => (h, none) :: makeRow hs []
  | h :: hs, f :: fs => (h, some (cleanString f)) :: makeRow hs fs

/-- Parse all data rows against the header; a row with more fields than the
header raises (`Err.malformedRow`) and aborts the whole parse. -/
def parseRows (header : List String) : List (List String) → Except Err (List Row)
  | [] => .ok []
  | fs :: rest =>
    if fs.length ≤ header.length then
      (parseRows header rest).map fun rs => makeRow header fs :: rs
    else .error .malformedRow

/-- The parsing pipeline shared by `task1` and `task2`: `csv.DictReader` over
the text plus the cleaning comprehension. -/
def parse (text : String) : Except Err (List Row) :=
  parseRows (headerFields text) (dataFieldRows text)

/-- The process-wide state: the `_cache` dict plus an instrumentation counter
of how many times the parser has run. -/
structure CState where
  cache : List (String × List Row)
  parses : Nat
deriving DecidableEq, Repr

/-- The check-then-parse-then-insert sequence at the top of both tasks: a hit
returns the cached rows unchanged, a miss parses and prepends the new entry
(a parse error caches nothing). -/
def getOrParse (st : CState) (data : String) : Except Err (List Row × CState) :=
  match alookup st.cache data with
  | some rows => .ok (rows, st)
  | none =>
    match parse data with
    | .error e => .error e
    | .ok rows => .ok (rows, ⟨(data, rows) :: st.cache, st.parses + 1⟩)

/-- Scalar query values appearing in the repository: strings and ints. -/
inductive PyVal where
  | s (v : String)
  | i (n : Int)
deriving DecidableEq, Repr

/-- Python `str` on a query value; `str` of an int is its decimal rendering. -/
def pyStr : PyVal → String
  | .s v => v
  | .i n => toString n

/-- A query: a dict from column name to scalar value. -/
abbrev Query := List (String × PyVal)

/-- Render every value of a query to its string form (`str(search[key])` in
`task1`, the prepared lists in `task2`). -/
def renderQuery (q : Query) : List (String × String) :=
  q.map fun p => (p.1, pyStr p.2)

/-- Keys of one row. -/
def rowKeys (r : Row) : List String := r.map Prod.fst

/-- Keys of the first row: the table schema. -/
def headKeys (rows : List Row) : List String := rowKeys (rows.headD [])

/-- The key columns: the schema minus the literal column `value`. -/
def keyFieldsOf (rows : List Row) : List String :=
  (headKeys rows).filter fun k => !(k == "value")

/-- Set equality of two key lists, as Python compares `set(...) != set(...)`. -/
def KeySetEq (a b : List String) : Prop :=
  (∀ k ∈ a, k ∈ b) ∧ (∀ k ∈ b, k ∈ a)

instance (a b : List String) : Decidable (KeySetEq a b) :=
  inferInstanceAs (Decidable (_ ∧ _))

/-- Match one row against rendered search values along `keys`, as both inner
loops do: look up `row[key]` then `search[key]` (a missing key raises
`KeyError`), compare, and short-circuit on the first mismatch. -/
def rowMatches (keys : List String) (search : List (String × String)) (row : Row) :
    Except Err Bool :=
  match keys with
  | [] => .ok true
  | k :: ks =>
    match alookup row k with
    | none => .error (.keyNotFound k)
    | some rv =>
      match alookup search k with
      | none => .error (.keyNotFound k)
      | some sv =>
        if rv = some sv then rowMatches ks search row else .ok false

/-- Scan rows in order for the first match and return its `value` field
(`row['value']`, a `KeyError` if the column is missing); `none` when no row
matches. -/
def findValue (rows : List Row) (keys : List String)
    (search : List (String × String)) : Except Err (Option Field) :=
  match rows with
  | [] => .ok none
  | r :: rs =>
    match rowMatches keys search r with
    | .error e => .error e
    | .ok true =>
      match alookup r "value" with
      | some f => .ok (some f)
      | none => .error (.keyNotFound "value")
    | .ok false => findValue rs keys search

/-- The body of `task1` after the cache step. -/
def task1Core (search : Query) (rows : List Row) : Except Err (Option String) :=
  match rows with
  | [] => .ok (some "-1")
  | r0 :: rest =>
    if KeySetEq (search.map Prod.fst) (keyFieldsOf (r0 :: rest)) then
      match findValue (r0 :: rest) (search.map Prod.fst) (renderQuery search) with
      | .error e => .error e
      | .ok (some f) => .ok f
      | .ok none => .ok (some "-1")
    else .error .keyMismatch

/-- `task1(search, data)`: exact-match lookup.  Returns the new process state
alongside the result; the Python sentinel `'-1'` is `some "-1"` and a `None`
value field comes back as `none`. -/
def task1 (st : CState) (search : Query) (data : String) :
    Except Err (Option String) × CState :=
  match getOrParse st data with
  | .error e => (.error e, st)
  | .ok (rows, st') => (task1Core search rows, st')

/-- Python `int(...)` on a string: optional surrounding whitespace, an
optional sign, then decimal digits (digit-grouping underscores and non-ASCII
digits are not modelled; the repository's tables contain none). -/
def digitsVal (cs : List Char) : Nat :=
  cs.foldl (fun n c => 10 * n + (c.toNat - 48)) 0

/-- True when `cs` is a nonempty run of ASCII digits. -/
def allDigits (cs : List Char) : Bool :=
  !cs.isEmpty && cs.all fun c => c.isDigit

/-- Integer parsing of a string, `none` on failure. -/
def pyIntOfString (s : String) : Option Int :=
  match stripEnds pyWhitespace s.data with
  | [] => none
  | c :: cs =>
    if c == '-' then
      if allDigits cs then some (-(digitsVal cs : Int)) else none
    else if c == '+' then
      if allDigits cs then some ((digitsVal cs : Int)) else none
    else if allDigits (c :: cs) then some ((digitsVal (c :: cs) : Int)) else none

/-- `int(row['value'])` on a field: a `None` field raises just like a
non-numeric string (`TypeError` vs `ValueError`, both `Err.valueFormat`). -/
def pyIntOfField : Field → Option Int
  | none => none
  | some s => pyIntOfString s

/-- The accumulation loop of `task2` over the prepared (rendered) queries:
for each query take the first matching row, parse its value, weight it 20
when even and 10 when odd, and accumulate; a query with no match contributes
nothing. -/
def aggregate (rows : List Row) (keys : List String) :
    List (List (String × String)) → Except Err (Int × Int)
  | [] => .ok (0, 0)
  | s :: ss =>
    match findValue rows keys s with
    | .error e => .error e
    | .ok none => aggregate rows keys ss
    | .ok (some f) =>
      match pyIntOfField f with
      | none => .error .valueFormat
      | some v =>
        let w : Int := if v % 2 = 0 then 20 else 10
        match aggregate rows keys ss with
        | .error e => .error e
        | .ok (sm, wt) => .ok (v * w + sm, w + wt)

/-- Round the nonnegative rational `num / den` (for `den > 0`) to the nearest
natural number, ties to even. -/
def rheNat (num den : Nat) : Nat :=
  let f := num / den
  let r := num % den
  if 2 * r < den then f
  else if den < 2 * r then f + 1
  else if f % 2 = 0 then f else f + 1

/-- Halving recursion for `bitLen`; the fuel (first argument) only bounds the
depth, and `bitLen` supplies `n` itself, which always suffices. -/
def bitLenAux : Nat → Nat → Nat
  | 0, _ => 0
  | fuel + 1, n => if n = 0 then 0 else bitLenAux fuel (n / 2) + 1

/-- The number of binary digits of a natural number (0 for 0). -/
def bitLen (n : Nat) : Nat :=
  bitLenAux n n

/-- The binary exponent of `A / B` for positive `A`, `B`: the unique `e` with
`2^e ≤ A/B < 2^(e+1)`, obtained from the bit lengths plus one correcting
comparison. -/
def binExp (A B : Nat) : Int :=
  let e0 : Int := (bitLen A : Int) - (bitLen B : Int)
  if B * 2 ^ e0.toNat ≤ A * 2 ^ (-e0).toNat then e0 else e0 - 1

/-- The correctly rounded (nearest, ties to even) IEEE binary64 magnitude of
`A / B` for positive `A`, `B`, as a pair `(m, ef)` whose exact value is
`m * 2^ef` with a 53-bit mantissa `m` (54 bits only transiently, when
rounding carries to `2^53`, which still denotes the right power of two).
Magnitudes below the normal range keep the full 53 bits rather than the
narrower subnormal precision; see the module comment for why the formatted
string is unaffected. -/
def divDouble (A B : Nat) : Nat × Int :=
  let e := binExp A B
  let s : Int := 52 - e
  let m := if 0 ≤ s then rheNat (A * 2 ^ s.toNat) B else rheNat A (B * 2 ^ (-s).toNat)
  (m, e - 52)

/-- Python's `f"{sm/wt:.1f}"` on ints with `wt > 0`: the quotient is computed
as a correctly rounded IEEE binary64 double (`none` models the
`OverflowError` raised when its rounded magnitude reaches `2^1024`), and the
double's exact dyadic value is then rendered with one fractional digit,
rounding half to even, with the quotient's sign (so a negative quotient that
rounds to zero prints `-0.0`, as Python does). -/
def floatFixed1 (sm wt : Int) : Option String :=
  if sm = 0 then some "0.0"
  else
    let p := divDouble sm.natAbs wt.natAbs
    -- `m * 2^ef ≥ 2^1024` stated via bit length: the magnitude's bit length
    -- is `bitLen m + ef`, and overflow means it reaches 1025
    if 1025 ≤ (bitLen p.1 : Int) + p.2 then none
    else
      let dec :=
        if 0 ≤ p.2 then 10 * p.1 * 2 ^ p.2.toNat
        else rheNat (10 * p.1) (2 ^ (-p.2).toNat)
      some ((if sm < 0 then "-" else "")
        ++ toString (dec / 10) ++ "." ++ toString (dec % 10))

/-- Round the rational `a / b` (for `b > 0`) to the nearest integer, ties to
even. -/
def roundHalfEven (a b : Int) : Int :=
  let f := a.fdiv b
  let r := a - b * f
  if 2 * r < b then f
  else if b < 2 * r then f + 1
  else if f % 2 = 0 then f else f + 1

/-- Modelled from the spec's words, for comparison with the source's float
path: the EXACT rational `sm / wt` rendered with one digit after the decimal
point, rounding half to even (the spec's first offered rounding choice).
`task2` does not compute this: it rounds the quotient to a 53-bit double
first (`floatFixed1`). -/
def exactFixed1 (sm wt : Int) : String :=
  let n := roundHalfEven (10 * sm) wt
  let m := n.natAbs
  (if sm < 0 then "-" else "") ++ toString (m / 10) ++ "." ++ toString (m % 10)

/-- The body of `task2` after the cache step. -/
def task2Core (searchList : List Query) (rows : List Row) : Except Err String :=
  match rows with
  | [] => .ok "0.0"
  | r0 :: rest =>
    match aggregate (r0 :: rest) (keyFieldsOf (r0 :: rest))
        (searchList.map renderQuery) with
    | .error e => .error e
    | .ok (sm, wt) =>
      if wt = 0 then .ok "0.0"
      else
        match floatFixed1 sm wt with
        | some s => .ok s
        | none => .error .overflowError

/-- `task2(search_list, data)`: parity-weighted average, with the new process
state. -/
def task2 (st : CState) (searchList : List Query) (data : String) :
    Except Err String × CState :=
  match getOrParse st data with
  | .error e => (.error e, st)
  | .ok (rows, st') => (task2Core searchList rows, st')

/-- Specification-side well-formedness of a parsed table: every row carries
the schema key set (the spec's data-model invariant for parsed tables). -/
def WFTable (rows : List Row) : Prop :=
  ∀ r ∈ rows, rowKeys r = headKeys rows

instance (rows : List Row) : Decidable (WFTable rows) :=
  inferInstanceAs (Decidable (∀ r ∈ rows, _))

/-- Specification-side match predicate: along every listed key column, the
row's stored field equals the natural string rendering of the query's value
for that column. -/
def SpecMatch (keys : List String) (q : Query) (r : Row) : Prop :=
  ∀ k ∈ keys, alookup r k = (alookup q k).map fun v => some (pyStr v)

instance (keys : List String) (q : Query) (r : Row) : Decidable (SpecMatch keys q r) :=
  inferInstanceAs (Decidable (∀ k ∈ keys, _))

/-- Specification-side first matching row, in source order. -/
def specFirstMatch (keys : List String) (q : Query) (rows : List Row) : Option Row :=
  rows.find? fun r => decide (SpecMatch keys q r)

/-- The `value` field of a row (exact when the row has a `value` column). -/
def specValue (r : Row) : Field :=
  (alookup r "value").getD none

/-- Specification-side accumulator of the Weighted Aggregator: per query, the
first matching row's integer value weighted 20 when even and 10 when odd;
queries with no match contribute nothing; a non-integer matched value is a
Value-Format error. -/
def specAgg (rows : List Row) (keys : List String) : List Query → Except Err (Int × Int)
  | [] => .ok (0, 0)
  | q :: qs =>
    match specFirstMatch keys q rows with
    | none => specAgg rows keys qs
    | some r =>
      match pyIntOfField (specValue r) with
      | none => .error .valueFormat
      | some v =>
        let w : Int := if v % 2 = 0 then 20 else 10
        match specAgg rows keys qs with
        | .error e => .error e
        | .ok (sm, wt) => .ok (v * w + sm, w + wt)

theorem alookup_eq_none_iff {β : Type} (l : List (String × β)) (k : String) :
    alookup l k = none ↔ k ∉ l.map Prod.fst := by
  induction l with
  | nil => simp [alookup]
  | cons p rest ih =>
    by_cases h : p.1 = k
    · simp [alookup, h]
    · simp only [alookup, if_neg h, ih, List.map_cons, List.mem_cons]
      constructor
      · rintro hnk (h1 | h2)
        · exact h h1.symm
        · exact hnk h2
      · intro hnk hm
        exact hnk (Or.inr hm)

theorem alookup_mem {β : Type} (l : List (String × β)) (k : String)
    (h : k ∈ l.map Prod.fst) : ∃ v, alookup l k = some v := by
  cases hl : alookup l k with
  | none => exact absurd h ((alookup_eq_none_iff l k).mp hl)
  | some v => exact ⟨v, rfl⟩

theorem alookup_append_left {β : Type} (l1 l2 : List (String × β)) (k : String)
    (h : k ∈ l1.map Prod.fst) : alookup (l1 ++ l2) k = alookup l1 k := by
  induction l1 with
  | nil => simp at h
  | cons p rest ih =>
    by_cases hp : p.1 = k
    · simp [alookup, hp]
    · have : k ∈ rest.map Prod.fst := by
        simp only [List.map_cons, List.mem_cons] at h
        rcases h with h1 | h2
        · exact absurd h1.symm hp
        · exact h2
      simp [alookup, hp, ih this]

theorem alookup_cons_preserve {β : Type} {c : List (String × β)} {d k : String}
    {r : β} (v : β) (hc : alookup c d = none) (hk : alookup c k = some r) :
    alookup ((d, v) :: c) k = some r := by
  have hne : ¬ d = k := by
    intro he
    rw [he] at hc
    rw [hc] at hk
    cases hk
  simpa [alookup, hne] using hk

theorem renderQuery_keys (q : Query) :
    (renderQuery q).map Prod.fst = q.map Prod.fst := by
  induction q with
  | nil => rfl
  | cons p rest ih => simp [renderQuery]

theorem alookup_renderQuery (q : Query) (k : String) :
    alookup (renderQuery q) k = (alookup q k).map pyStr := by
  induction q with
  | nil => rfl
  | cons p rest ih =>
    by_cases h : p.1 = k
    · simp [renderQuery, alookup, h]
    · simpa [renderQuery, alookup, h] using ih

theorem mem_keyFieldsOf (rows : List Row) (k : String) :
    k ∈ keyFieldsOf rows ↔ k ∈ headKeys rows ∧ ¬ k = "value" := by
  simp [keyFieldsOf, List.mem_filter]

theorem headKeys_cons (r0 : Row) (rest : List Row) :
    headKeys (r0 :: rest) = rowKeys r0 := rfl

theorem rowMatches_eq_decide (keys : List String) (ps : List (String × String))
    (r : Row) (hr : ∀ k ∈ keys, k ∈ rowKeys r)
    (hp : ∀ k ∈ keys, k ∈ ps.map Prod.fst) :
    rowMatches keys ps r =
      .ok (decide (∀ k ∈ keys, alookup r k = (alookup ps k).map some)) := by
  induction keys with
  | nil => simp [rowMatches]
  | cons k ks ih =>
    obtain ⟨rv, hrv⟩ := alookup_mem r k (hr k (by simp) : k ∈ r.map Prod.fst)
    obtain ⟨sv, hsv⟩ := alookup_mem ps k (hp k (by simp))
    simp only [rowMatches, hrv, hsv]
    by_cases hmatch : rv = some sv
    · rw [if_pos hmatch,
        ih (fun x hx => hr x (List.mem_cons_of_mem _ hx))
          (fun x hx => hp x (List.mem_cons_of_mem _ hx))]
      congr 1
      rw [eq_comm]
      apply decide_eq_decide.mpr
      rw [List.forall_mem_cons]
      constructor
      · rintro ⟨_, h2⟩
        exact h2
      · intro h2
        refine ⟨?_, h2⟩
        rw [hrv, hsv, hmatch]
        rfl
    · rw [if_neg hmatch]
      congr 1
      rw [eq_comm, decide_eq_false_iff_not]
      intro hall
      apply hmatch
      have := hall k (by simp)
      rw [hrv, hsv] at this
      simpa using this

theorem spec_match_iff (keys : List String) (q : Query) (r : Row) :
    (∀ k ∈ keys, alookup r k = (alookup (renderQuery q) k).map some) ↔
      SpecMatch keys q r := by
  unfold SpecMatch
  refine forall_congr' fun k => imp_congr_right fun _ => ?_
  rw [alookup_renderQuery, Option.map_map]
  rfl

theorem findValue_eq_spec (rows : List Row) (keys : List String) (q : Query)
    (hr : ∀ r ∈ rows, ∀ k ∈ keys, k ∈ rowKeys r)
    (hq : ∀ k ∈ keys, k ∈ q.map Prod.fst)
    (hv : ∀ r ∈ rows, "value" ∈ rowKeys r) :
    findValue rows keys (renderQuery q) =
      .ok ((specFirstMatch keys q rows).map specValue) := by
  induction rows with
  | nil => simp [findValue, specFirstMatch]
  | cons r rs ih =>
    have hpk : ∀ k ∈ keys, k ∈ (renderQuery q).map Prod.fst := by
      intro k hk
      rw [renderQuery_keys]
      exact hq k hk
    have h1 := rowMatches_eq_decide keys (renderQuery q) r (hr r (by simp)) hpk
    have h2 : (decide (∀ k ∈ keys, alookup r k = (alookup (renderQuery q) k).map some))
        = decide (SpecMatch keys q r) :=
      decide_eq_decide.mpr (spec_match_iff keys q r)
    rw [h2] at h1
    by_cases hm : SpecMatch keys q r
    · obtain ⟨f, hf⟩ := alookup_mem r "value" (hv r (by simp))
      simp only [findValue, h1, decide_eq_true hm, hf, specFirstMatch,
        List.find?_cons, Option.map_some']
      rw [specValue]
      rw [hf]
      rfl
    · have hrec := ih (fun x hx => hr x (List.mem_cons_of_mem _ hx))
        (fun x hx => hv x (List.mem_cons_of_mem _ hx))
      simp only [findValue, h1, decide_eq_false hm, specFirstMatch, List.find?_cons]
      exact hrec

theorem find?_congr_mem {α : Type} (l : List α) (p p' : α → Bool)
    (h : ∀ a ∈ l, p a = p' a) : l.find? p = l.find? p' := by
  induction l with
  | nil => rfl
  | cons a rest ih =>
    rw [List.find?_cons, List.find?_cons, h a (by simp)]
    cases p' a
    · exact ih fun x hx => h x (List.mem_cons_of_mem _ hx)
    · rfl

theorem specMatch_keyset {a b : List String} (hk : KeySetEq a b) (q : Query)
    (r : Row) : SpecMatch a q r ↔ SpecMatch b q r := by
  constructor
  · intro h k hkb
    exact h k (hk.2 k hkb)
  · intro h k hka
    exact h k (hk.1 k hka)

theorem getOrParse_cases (st : CState) (d : String) (rows : List Row)
    (st' : CState) (h : getOrParse st d = .ok (rows, st')) :
    st' = st ∨ (alookup st.cache d = none ∧ st'.cache = (d, rows) :: st.cache) := by
  unfold getOrParse at h
  cases hc : alookup st.cache d with
  | some r =>
    rw [hc] at h
    injection h with h
    injection h with _ h2
    exact Or.inl h2.symm
  | none =>
    rw [hc] at h
    cases hp : parse d with
    | error e => rw [hp] at h; cases h
    | ok prows =>
      rw [hp] at h
      injection h with h
      injection h with h1 h2
      subst h1
      exact Or.inr ⟨rfl, by rw [← h2]⟩

theorem task1_cache_extends (st : CState) (q : Query) (d k : String)
    (r : List Row) (hk : alookup st.cache k = some r) :
    alookup ((task1 st q d).2).cache k = some r := by
  unfold task1
  cases hgo : getOrParse st d with
  | error e => simpa using hk
  | ok p =>
    rcases getOrParse_cases st d p.1 p.2 (by rw [hgo]) with h | ⟨h1, h2⟩
    · simpa [h] using hk
    · simpa [h2] using alookup_cons_preserve p.1 h1 hk

theorem parseRows_error (header : List String) (l : List (List String))
    (h : ∃ fs ∈ l, header.length < fs.length) :
    parseRows header l = .error .malformedRow := by
  induction l with
  | nil => simp at h
  | cons fs rest ih =>
    obtain ⟨gs, hgs, hlen⟩ := h
    by_cases hfs : fs.length ≤ header.length
    · have hrest : ∃ gs ∈ rest, header.length < gs.length := by
        rcases List.mem_cons.mp hgs with h1 | h2
        · subst h1
          exact absurd hlen (not_lt.mpr hfs)
        · exact ⟨gs, h2, hlen⟩
      simp only [parseRows, if_pos hfs, ih hrest]
      rfl
    · simp [parseRows, hfs]

theorem parseRows_ok (header : List String) (l : List (List String))
    (h : ∀ fs ∈ l, fs.length ≤ header.length) :
    parseRows header l = .ok (l.map (makeRow header)) := by
  induction l with
  | nil => rfl
  | cons fs rest ih =>
    simp only [parseRows, if_pos (h fs (by simp)),
      ih fun x hx => h x (List.mem_cons_of_mem _ hx)]
    rfl

theorem parse_ok_shape (text : String) (rows : List Row)
    (h : parse text = .ok rows) :
    rows = (dataFieldRows text).map (makeRow (headerFields text))
    ∧ ∀ fs ∈ dataFieldRows text, fs.length ≤ (headerFields text).length := by
  by_cases hall : ∀ fs ∈ dataFieldRows text, fs.length ≤ (headerFields text).length
  · refine ⟨?_, hall⟩
    rw [parse, parseRows_ok _ _ hall] at h
    injection h with h
    exact h.symm
  · exfalso
    push_neg at hall
    obtain ⟨fs, hfs, hlen⟩ := hall
    rw [parse, parseRows_error _ _ ⟨fs, hfs, hlen⟩] at h
    cases h

theorem makeRow_get (header fields : List String) (j : Nat) (name : String)
    (hj : header.get? j = some name) :
    (makeRow header fields).get? j = some (name, (fields.get? j).map cleanString) := by
  induction header generalizing fields j with
  | nil => simp at hj
  | cons h hs ih =>
    cases fields with
    | nil =>
      cases j with
      | zero =>
        injection hj with hj
        subst hj
        rfl
      | succ j =>
        simpa [makeRow] using ih [] j (by simpa using hj)
    | cons f fs =>
      cases j with
      | zero =>
        injection hj with hj
        subst hj
        rfl
      | succ j =>
        simpa [makeRow] using ih fs j (by simpa using hj)

theorem rowMatches_congr (keys : List String) (ps ps' : List (String × String))
    (r : Row) (h : ∀ k ∈ keys, alookup ps k = alookup ps' k) :
    rowMatches keys ps r = rowMatches keys ps' r := by
  induction keys with
  | nil => rfl
  | cons k ks ih =>
    simp only [rowMatches, h k (by simp)]
    cases alookup r k with
    | none => rfl
    | some rv =>
      cases alookup ps' k with
      | none => rfl
      | some sv =>
        by_cases hm : rv = some sv
        · simp only [if_pos hm]
          exact ih fun x hx => h x (List.mem_cons_of_mem _ hx)
        · simp only [if_neg hm]

theorem findValue_congr (rows : List Row) (keys : List String)
    (ps ps' : List (String × String))
    (h : ∀ k ∈ keys, alookup ps k = alookup ps' k) :
    findValue rows keys ps = findValue rows keys ps' := by
  induction rows with
  | nil => rfl
  | cons r rs ih =>
    simp only [findValue, rowMatches_congr keys ps ps' r h, ih]

theorem task2_cache_extends (st : CState) (qs : List Query) (d k : String)
    (r : List Row) (hk : alookup st.cache k = some r) :
    alookup ((task2 st qs d).2).cache k = some r := by
  unfold task2
  cases hgo : getOrParse st d with
  | error e => simpa using hk
  | ok p =>
    rcases getOrParse_cases st d p.1 p.2 (by rw [hgo]) with h | ⟨h1, h2⟩
    · simpa [h] using hk
    · simpa [h2] using alookup_cons_preserve p.1 h1 hk

theorem aggregate_eq_spec (rows : List Row) (keys : List String)
    (qs : List Query)
    (hr : ∀ r ∈ rows, ∀ k ∈ keys, k ∈ rowKeys r)
    (hq : ∀ q ∈ qs, ∀ k ∈ keys, k ∈ q.map Prod.fst)
    (hv : ∀ r ∈ rows, "value" ∈ rowKeys r) :
    aggregate rows keys (qs.map renderQuery) = specAgg rows keys qs := by
  induction qs with
  | nil => rfl
  | cons q qs ih =>
    have hfv := findValue_eq_spec rows keys q hr (hq q (by simp)) hv
    have hrec := ih fun x hx => hq x (List.mem_cons_of_mem _ hx)
    simp only [List.map_cons, aggregate, specAgg, hfv, hrec]
    cases specFirstMatch keys q rows with
    | none => rfl
    | some r => rfl

/-- Claim C1: for every non-empty parsed table and every query whose key set
equals the schema minus the `value` column, `task1` scans rows in source
order and returns the `value` field of the first row whose stored string, on
every key column, equals the natural string rendering of the query's value
for that column; if no row matches, it returns the sentinel `"-1"`. -/
theorem task1_first_match (st : CState) (q : Query) (data : String)
    (rows : List Row) (st' : CState)
    (hrows : getOrParse st data = .ok (rows, st'))
    (hne : rows ≠ [])
    (hwf : WFTable rows)
    (hv : "value" ∈ headKeys rows)
    (hk : KeySetEq (q.map Prod.fst) (keyFieldsOf rows)) :
    (task1 st q data).1 =
      .ok (match specFirstMatch (keyFieldsOf rows) q rows with
           | some r => specValue r
           | none => some "-1") := by
  have hfst : (task1 st q data).1 = task1Core q rows := by
    unfold task1
    rw [hrows]
  rw [hfst]
  obtain ⟨r0, rest, rfl⟩ : ∃ r0 rest, rows = r0 :: rest := by
    cases rows with
    | nil => exact absurd rfl hne
    | cons a l => exact ⟨a, l, rfl⟩
  have hr : ∀ r ∈ r0 :: rest, ∀ k ∈ q.map Prod.fst, k ∈ rowKeys r := by
    intro r hrmem k hkmem
    have h2 : k ∈ headKeys (r0 :: rest) :=
      ((mem_keyFieldsOf _ k).mp (hk.1 k hkmem)).1
    rw [hwf r hrmem]
    exact h2
  have hvr : ∀ r ∈ r0 :: rest, "value" ∈ rowKeys r := by
    intro r hrmem
    rw [hwf r hrmem]
    exact hv
  have hfv := findValue_eq_spec (r0 :: rest) (q.map Prod.fst) q hr
    (fun _ hkk => hkk) hvr
  have hsame : specFirstMatch (q.map Prod.fst) q (r0 :: rest)
      = specFirstMatch (keyFieldsOf (r0 :: rest)) q (r0 :: rest) :=
    find?_congr_mem _ _ _ fun r _ =>
      decide_eq_decide.mpr (specMatch_keyset hk q r)
  rw [hsame] at hfv
  simp only [task1Core, if_pos hk, hfv]
  cases specFirstMatch (keyFieldsOf (r0 :: rest)) q (r0 :: rest) with
  | none => rfl
  | some r => rfl

/-- Claim C1 witness: the literal table from the repository example; the
query for side `IN`, currency `PLN` returns the first matching row's value
`"1"`. -/
theorem task1_first_match_witness :
    (task1 ⟨[], 0⟩ [("side", PyVal.s "IN"), ("currency", PyVal.s "PLN")]
        "side,currency,value\nIN,PLN,1\nIN,EUR,2\nOUT,ANY,3").1 =
      .ok (some "1") := by
  have h := task1_first_match ⟨[], 0⟩
      [("side", PyVal.s "IN"), ("currency", PyVal.s "PLN")]
      "side,currency,value\nIN,PLN,1\nIN,EUR,2\nOUT,ANY,3"
      [[("side", some "IN"), ("currency", some "PLN"), ("value", some "1")],
       [("side", some "IN"), ("currency", some "EUR"), ("value", some "2")],
       [("side", some "OUT"), ("currency", some "ANY"), ("value", some "3")]]
      ⟨[("side,currency,value\nIN,PLN,1\nIN,EUR,2\nOUT,ANY,3",
         [[("side", some "IN"), ("currency", some "PLN"), ("value", some "1")],
          [("side", some "IN"), ("currency", some "EUR"), ("value", some "2")],
          [("side", some "OUT"), ("currency", some "ANY"), ("value", some "3")]])],
        1⟩
      (by decide) (by decide) (by decide) (by decide) (by decide)
  rw [h]
  decide

/-- Claim C4: against a non-empty table, a query whose key set differs as a
set — missing or extra key, inequality in either direction — from the schema
minus `value` makes `task1` fail with the Key-Mismatch error rather than
return a value or the `"-1"` sentinel. -/
theorem task1_key_mismatch (st : CState) (q : Query) (data : String)
    (rows : List Row) (st' : CState)
    (hrows : getOrParse st data = .ok (rows, st'))
    (hne : rows ≠ [])
    (hk : ¬ KeySetEq (q.map Prod.fst) (keyFieldsOf rows)) :
    (task1 st q data).1 = .error .keyMismatch := by
  have hfst : (task1 st q data).1 = task1Core q rows := by
    unfold task1
    rw [hrows]
  rw [hfst]
  obtain ⟨r0, rest, rfl⟩ : ∃ r0 rest, rows = r0 :: rest := by
    cases rows with
    | nil => exact absurd rfl hne
    | cons a l => exact ⟨a, l, rfl⟩
  simp only [task1Core, if_neg hk]

/-- Claim C4 witness: a query missing the `currency` key raises Key-Mismatch
on the literal table. -/
theorem task1_key_mismatch_witness :
    (task1 ⟨[], 0⟩ [("side", PyVal.s "IN")]
        "side,currency,value\nIN,PLN,1\nIN,EUR,2\nOUT,ANY,3").1 =
      .error .keyMismatch := by
  have h := task1_key_mismatch ⟨[], 0⟩ [("side", PyVal.s "IN")]
      "side,currency,value\nIN,PLN,1\nIN,EUR,2\nOUT,ANY,3"
      [[("side", some "IN"), ("currency", some "PLN"), ("value", some "1")],
       [("side", some "IN"), ("currency", some "EUR"), ("value", some "2")],
       [("side", some "OUT"), ("currency", some "ANY"), ("value", some "3")]]
      ⟨[("side,currency,value\nIN,PLN,1\nIN,EUR,2\nOUT,ANY,3",
         [[("side", some "IN"), ("currency", some "PLN"), ("value", some "1")],
          [("side", some "IN"), ("currency", some "EUR"), ("value", some "2")],
          [("side", some "OUT"), ("currency", some "ANY"), ("value", some "3")]])],
        1⟩
      (by decide) (by decide) (by decide)
  exact h

/-- Claim C8: when the parsed table is empty (no data rows), `task1` returns
`"-1"` and `task2` returns `"0.0"` for any queries, with no Key-Mismatch or
other error on the empty-table path. -/
theorem empty_table_sentinels (st : CState) (q : Query) (qs : List Query)
    (data : String) (st' : CState)
    (h : getOrParse st data = .ok ([], st')) :
    (task1 st q data).1 = .ok (some "-1") ∧ (task2 st qs data).1 = .ok "0.0" := by
  constructor
  · unfold task1
    rw [h]
    rfl
  · unfold task2
    rw [h]
    rfl

/-- Claim C8 witness: a header-only table gives the sentinels for a key-set
that would otherwise mismatch. -/
theorem empty_table_sentinels_witness :
    (task1 ⟨[], 0⟩ [("zz", PyVal.i 7)] "a,b,value").1 = .ok (some "-1")
    ∧ (task2 ⟨[], 0⟩ [[("zz", PyVal.i 7)]] "a,b,value").1 = .ok "0.0" := by
  exact empty_table_sentinels ⟨[], 0⟩ [("zz", PyVal.i 7)] [[("zz", PyVal.i 7)]]
    "a,b,value" ⟨[("a,b,value", [])], 1⟩ (by decide)

/-- Claim C2 amended: `task2` takes, per query, the first matching row only,
parses its `value` field as an integer (Value-Format error when not
parseable), weights it 20 when even and 10 when odd, accumulates the
weighted sum and the weight total, and returns `"0.0"` when the weight total
is zero; otherwise it returns the IEEE binary64 double quotient
`sum / weight_total` — not the exact rational — rendered with one digit
after the decimal point, half to even on the double's exact value, raising
an overflow error when the quotient leaves the double range (two queries
matching values 10 and 15 still yield 350/30 rendered `"11.7"`, as the
witness shows). -/
theorem task2_weighted_average (st : CState) (qs : List Query) (data : String)
    (rows : List Row) (st' : CState)
    (hrows : getOrParse st data = .ok (rows, st'))
    (hne : rows ≠ [])
    (hwf : WFTable rows)
    (hv : "value" ∈ headKeys rows)
    (hq : ∀ q ∈ qs, ∀ k ∈ keyFieldsOf rows, k ∈ q.map Prod.fst) :
    (task2 st qs data).1 =
      match specAgg rows (keyFieldsOf rows) qs with
      | .error e => .error e
      | .ok (sm, wt) =>
        if wt = 0 then .ok "0.0"
        else
          match floatFixed1 sm wt with
          | some s => .ok s
          | none => .error .overflowError := by
  have hfst : (task2 st qs data).1 = task2Core qs rows := by
    unfold task2
    rw [hrows]
  rw [hfst]
  obtain ⟨r0, rest, rfl⟩ : ∃ r0 rest, rows = r0 :: rest := by
    cases rows with
    | nil => exact absurd rfl hne
    | cons a l => exact ⟨a, l, rfl⟩
  have hr : ∀ r ∈ r0 :: rest, ∀ k ∈ keyFieldsOf (r0 :: rest), k ∈ rowKeys r := by
    intro r hrmem k hkmem
    rw [hwf r hrmem]
    exact ((mem_keyFieldsOf _ k).mp hkmem).1
  have hvr : ∀ r ∈ r0 :: rest, "value" ∈ rowKeys r := by
    intro r hrmem
    rw [hwf r hrmem]
    exact hv
  have hagg := aggregate_eq_spec (r0 :: rest) (keyFieldsOf (r0 :: rest)) qs hr hq hvr
  simp only [task2Core, hagg]

/-- Claim C2 witness: two queries matching the even value 10 (weight 20) and
the odd value 15 (weight 10) give 350/30, rendered `"11.7"`. -/
theorem task2_weighted_average_witness :
    (task2 ⟨[], 0⟩ [[("k", PyVal.s "x")], [("k", PyVal.s "y")]]
        "k,value\nx,10\ny,15").1 = .ok "11.7" := by
  have h := task2_weighted_average ⟨[], 0⟩
      [[("k", PyVal.s "x")], [("k", PyVal.s "y")]] "k,value\nx,10\ny,15"
      [[("k", some "x"), ("value", some "10")],
       [("k", some "y"), ("value", some "15")]]
      ⟨[("k,value\nx,10\ny,15",
         [[("k", some "x"), ("value", some "10")],
          [("k", some "y"), ("value", some "15")]])], 1⟩
      (by decide) (by decide) (by decide) (by decide) (by decide)
  rw [h]
  decide

/-- Claim C2 counterexample: a single query matching the odd value
`10^17 + 1` (sum `10^18 + 10`, weight 10).  The exact quotient is
`10^17 + 1`, so the claim's exact-rational reading demands
`"100000000000000001.0"`; the code divides as doubles, `10^17 + 1` rounds to
the neighbouring double `10^17`, and `task2` returns
`"100000000000000000.0"`. -/
theorem task2_float_rounding_counterexample :
    (task2 ⟨[], 0⟩ [[("k", PyVal.s "x")]] "k,value\nx,100000000000000001").1
        = .ok "100000000000000000.0"
    ∧ (.ok "100000000000000000.0" : Except Err String)
        ≠ .ok (exactFixed1 (10 * 100000000000000001) 10) := by
  decide

/-- Documentation of the non-dyadic tie divergence (reachable with sums 60
and weight 400, e.g. queries matching values 1, 1, 2 and eighteen 0s): the
double nearest 0.15 lies below it and formats to `"0.1"`, while the exact
rational 0.15 rounds half-to-even to `"0.2"`. -/
theorem floatFixed1_tie :
    floatFixed1 60 400 = some "0.1" ∧ exactFixed1 60 400 = "0.2" := by
  decide

/-- Claim C6 counterexample: at the literal scenario of the claim the
aggregator does not return `"12.5"`; the weighted average of 10 (weight 20)
and 15 (weight 10) is 350/30, not 12.5 (the unweighted mean). -/
theorem task2_literal_not_125 :
    (task2 ⟨[], 0⟩ [[("a", PyVal.i 1), ("b", PyVal.i 2)], [("a", PyVal.i 3), ("b", PyVal.i 4)]]
        "a,b,value\n1,2,10\n3,4,15\n").1 ≠ .ok "12.5" := by
  decide

/-- Claim C6 amended: for that literal table text and query list, `task2`
returns `"11.7"` = (10*20 + 15*10)/30 rounded to one decimal place. -/
theorem task2_literal_117 :
    (task2 ⟨[], 0⟩ [[("a", PyVal.i 1), ("b", PyVal.i 2)], [("a", PyVal.i 3), ("b", PyVal.i 4)]]
        "a,b,value\n1,2,10\n3,4,15\n").1 = .ok "11.7" := by
  decide

/-- Claim C7 counterexample: a query missing a key column is not permissive —
`task2` raises a key-lookup error (`search[key]` raises `KeyError`) instead
of treating the query as unmatched. -/
theorem task2_missing_key_raises :
    (task2 ⟨[], 0⟩ [[]] "a,value\n1,10").1 = .error (.keyNotFound "a") := by
  decide

/-- Claim C7 amended: `task2` performs no explicit schema validation; a query
that covers the key columns but matches no row contributes nothing and raises
nothing, while a query missing a key column raises a key-lookup error when
the scan consults that key (here: the first key column, consulted on the
first row). -/
theorem task2_schema_permissive (st : CState) (data : String) (rows : List Row)
    (st' : CState) (q1 q2 : Query) (qs : List Query) (k : String)
    (hrows : getOrParse st data = .ok (rows, st'))
    (hne : rows ≠ [])
    (h1 : findValue rows (keyFieldsOf rows) (renderQuery q1) = .ok none)
    (hk : (keyFieldsOf rows).head? = some k)
    (hk2 : k ∉ q2.map Prod.fst) :
    (task2 st (q1 :: qs) data).1 = (task2 st qs data).1
    ∧ (task2 st (q2 :: qs) data).1 = .error (.keyNotFound k) := by
  have hfst1 : (task2 st (q1 :: qs) data).1 = task2Core (q1 :: qs) rows := by
    unfold task2
    rw [hrows]
  have hfst2 : (task2 st qs data).1 = task2Core qs rows := by
    unfold task2
    rw [hrows]
  have hfst3 : (task2 st (q2 :: qs) data).1 = task2Core (q2 :: qs) rows := by
    unfold task2
    rw [hrows]
  rw [hfst1, hfst2, hfst3]
  obtain ⟨r0, rest, rfl⟩ : ∃ r0 rest, rows = r0 :: rest := by
    cases rows with
    | nil => exact absurd rfl hne
    | cons a l => exact ⟨a, l, rfl⟩
  constructor
  · simp only [task2Core, List.map_cons, aggregate, h1]
  · obtain ⟨ktail, hkf⟩ : ∃ ktail, keyFieldsOf (r0 :: rest) = k :: ktail := by
      cases hkfl : keyFieldsOf (r0 :: rest) with
      | nil => rw [hkfl] at hk; cases hk
      | cons a t =>
        rw [hkfl] at hk
        injection hk with hk
        exact ⟨t, by rw [hk]⟩
    have hmem : k ∈ rowKeys r0 := by
      have hm1 : k ∈ keyFieldsOf (r0 :: rest) := by
        rw [hkf]
        simp
      have hm2 := ((mem_keyFieldsOf _ k).mp hm1).1
      rwa [headKeys_cons] at hm2
    obtain ⟨rv, hrv⟩ := alookup_mem r0 k hmem
    have hsq : alookup (renderQuery q2) k = none := by
      rw [alookup_renderQuery, (alookup_eq_none_iff q2 k).mpr hk2]
      rfl
    have hrm : rowMatches (keyFieldsOf (r0 :: rest)) (renderQuery q2) r0
        = .error (.keyNotFound k) := by
      rw [hkf]
      simp only [rowMatches, hrv, hsq]
    have hfv2 : findValue (r0 :: rest) (keyFieldsOf (r0 :: rest)) (renderQuery q2)
        = .error (.keyNotFound k) := by
      simp only [findValue, hrm]
    simp only [task2Core, List.map_cons, aggregate, hfv2]

/-- Claim C7 witness: on table `a,value` the off-key query `a = 9` matches
nothing and contributes nothing, while the query `{b: 1}` (missing key
column `a`) raises the key error. -/
theorem task2_schema_permissive_witness :
    (task2 ⟨[], 0⟩ [[("a", PyVal.i 9)]] "a,value\n1,10").1
        = (task2 ⟨[], 0⟩ [] "a,value\n1,10").1
    ∧ (task2 ⟨[], 0⟩ [[("b", PyVal.i 1)]] "a,value\n1,10").1
        = .error (.keyNotFound "a") := by
  exact task2_schema_permissive ⟨[], 0⟩ "a,value\n1,10"
    [[("a", some "1"), ("value", some "10")]]
    ⟨[("a,value\n1,10", [[("a", some "1"), ("value", some "10")]])], 1⟩
    [("a", PyVal.i 9)] [("b", PyVal.i 1)] [] "a"
    (by decide) (by decide) (by decide) (by decide) (by decide)

/-- Claim C10: matching in `task2` inspects only the table's key columns;
adding extra keys beyond the schema to a query that already covers every key
column changes nothing — result and state are identical with and without the
extra keys, so a query matching a row still matches and contributes. -/
theorem task2_extra_keys (st : CState) (data : String) (rows : List Row)
    (st' : CState) (q extra : Query) (qs : List Query)
    (hrows : getOrParse st data = .ok (rows, st'))
    (hq : ∀ k ∈ keyFieldsOf rows, k ∈ q.map Prod.fst)
    (hextra : ∀ p ∈ extra, p.1 ∉ keyFieldsOf rows) :
    task2 st ((q ++ extra) :: qs) data = task2 st (q :: qs) data := by
  unfold task2
  rw [hrows]
  show (task2Core ((q ++ extra) :: qs) rows, st') = (task2Core (q :: qs) rows, st')
  cases rows with
  | nil => rfl
  | cons r0 rest =>
    have hlk : ∀ k ∈ keyFieldsOf (r0 :: rest),
        alookup (renderQuery (q ++ extra)) k = alookup (renderQuery q) k := by
      intro k hkmem
      have happ : renderQuery (q ++ extra) = renderQuery q ++ renderQuery extra := by
        simp [renderQuery]
      rw [happ]
      apply alookup_append_left
      rw [renderQuery_keys]
      exact hq k hkmem
    have hfv := findValue_congr (r0 :: rest) (keyFieldsOf (r0 :: rest))
      (renderQuery (q ++ extra)) (renderQuery q) hlk
    simp only [task2Core, List.map_cons, aggregate, hfv]

/-- Claim C10 witness: the extra key `z` (outside the schema) changes neither
the result nor the cache state of the aggregation. -/
theorem task2_extra_keys_witness :
    task2 ⟨[], 0⟩ [[("a", PyVal.i 1), ("z", PyVal.i 9)]] "a,value\n1,10"
      = task2 ⟨[], 0⟩ [[("a", PyVal.i 1)]] "a,value\n1,10" := by
  exact task2_extra_keys ⟨[], 0⟩ "a,value\n1,10"
    [[("a", some "1"), ("value", some "10")]]
    ⟨[("a,value\n1,10", [[("a", some "1"), ("value", some "10")]])], 1⟩
    [("a", PyVal.i 1)] [("z", PyVal.i 9)] []
    (by decide) (by decide) (by decide)

/-- Claim C3: the memoization invariant of the table cache — a text with an
existing cache entry is served from the cache with the previously parsed row
sequence, the state (including the parse counter) is unchanged by `task1` and
`task2` on that text, and no call on any text evicts, replaces, or mutates
an existing entry. -/
theorem cache_memoization (st : CState) (data d2 k2 : String)
    (rows r2 : List Row) (q q2 : Query) (qs qs2 : List Query)
    (h : alookup st.cache data = some rows)
    (h2 : alookup st.cache k2 = some r2) :
    getOrParse st data = .ok (rows, st)
    ∧ (task1 st q data).2 = st
    ∧ (task2 st qs data).2 = st
    ∧ alookup ((task1 st q2 d2).2).cache k2 = some r2
    ∧ alookup ((task2 st qs2 d2).2).cache k2 = some r2 := by
  have hgo : getOrParse st data = .ok (rows, st) := by
    unfold getOrParse
    rw [h]
  refine ⟨hgo, ?_, ?_, task1_cache_extends st q2 d2 k2 r2 h2,
    task2_cache_extends st qs2 d2 k2 r2 h2⟩
  · unfold task1
    rw [hgo]
  · unfold task2
    rw [hgo]

/-- Claim C3 witness: with text `"t"` cached, both tasks leave the state (and
the parse counter) untouched and a fresh parse of a different text preserves
the entry for `"t"`. -/
theorem cache_memoization_witness :
    getOrParse ⟨[("t", [[("a", some "1"), ("value", some "2")]])], 1⟩ "t"
      = .ok ([[("a", some "1"), ("value", some "2")]],
             ⟨[("t", [[("a", some "1"), ("value", some "2")]])], 1⟩)
    ∧ (task1 ⟨[("t", [[("a", some "1"), ("value", some "2")]])], 1⟩
         [("a", PyVal.i 1)] "t").2
      = ⟨[("t", [[("a", some "1"), ("value", some "2")]])], 1⟩
    ∧ (task2 ⟨[("t", [[("a", some "1"), ("value", some "2")]])], 1⟩
         [[("a", PyVal.i 1)]] "t").2
      = ⟨[("t", [[("a", some "1"), ("value", some "2")]])], 1⟩
    ∧ alookup ((task1 ⟨[("t", [[("a", some "1"), ("value", some "2")]])], 1⟩
         [("b", PyVal.i 5)] "b,value\n5,6").2).cache "t"
      = some [[("a", some "1"), ("value", some "2")]]
    ∧ alookup ((task2 ⟨[("t", [[("a", some "1"), ("value", some "2")]])], 1⟩
         [[("b", PyVal.i 5)]] "b,value\n5,6").2).cache "t"
      = some [[("a", some "1"), ("value", some "2")]] := by
  exact cache_memoization ⟨[("t", [[("a", some "1"), ("value", some "2")]])], 1⟩
    "t" "b,value\n5,6" "t"
    [[("a", some "1"), ("value", some "2")]] [[("a", some "1"), ("value", some "2")]]
    [("a", PyVal.i 1)] [("b", PyVal.i 5)] [[("a", PyVal.i 1)]] [[("b", PyVal.i 5)]]
    (by decide) (by decide)

/-- Claim C5 counterexample: a data line with fewer fields than the header
does not make parsing fail — the short row parses, with the missing trailing
columns preserved as absent (`None`) fields. -/
theorem parse_short_row_ok :
    parse "a,b,value\n1,2" =
      .ok [[("a", some "1"), ("b", some "2"), ("value", none)]] := by
  decide

/-- Claim C5 amended: only a data line with MORE fields than the header makes
the call fail (the error from cleaning the restkey list), the error
propagates immediately to the caller and nothing is cached for that text;
a data line with fewer fields parses, padding the missing columns with
absent values. -/
theorem parse_field_count (st1 : CState) (q : Query) (qs : List Query)
    (t1 t2 : String)
    (hfresh : alookup st1.cache t1 = none)
    (hlong : ∃ fs ∈ dataFieldRows t1, (headerFields t1).length < fs.length)
    (hshort : ∀ fs ∈ dataFieldRows t2, fs.length ≤ (headerFields t2).length) :
    task1 st1 q t1 = (.error .malformedRow, st1)
    ∧ task2 st1 qs t1 = (.error .malformedRow, st1)
    ∧ parse t2 = .ok ((dataFieldRows t2).map (makeRow (headerFields t2))) := by
  have hperr : parse t1 = .error .malformedRow := by
    unfold parse
    exact parseRows_error _ _ hlong
  have hgo : getOrParse st1 t1 = .error .malformedRow := by
    unfold getOrParse
    rw [hfresh, hperr]
  refine ⟨?_, ?_, by unfold parse; exact parseRows_ok _ _ hshort⟩
  · unfold task1
    rw [hgo]
  · unfold task2
    rw [hgo]

/-- Claim C5 witness: a three-field line under a two-column header errors in
both tasks without caching; a two-field line under a three-column header
parses with an absent third column. -/
theorem parse_field_count_witness :
    task1 ⟨[], 0⟩ [("a", PyVal.i 1), ("b", PyVal.i 2)] "a,b\n1,2,3"
      = (.error .malformedRow, ⟨[], 0⟩)
    ∧ task2 ⟨[], 0⟩ [] "a,b\n1,2,3" = (.error .malformedRow, ⟨[], 0⟩)
    ∧ parse "a,b,value\n1,2"
      = .ok ((dataFieldRows "a,b,value\n1,2").map
          (makeRow (headerFields "a,b,value\n1,2"))) := by
  exact parse_field_count ⟨[], 0⟩ [("a", PyVal.i 1), ("b", PyVal.i 2)] []
    "a,b\n1,2,3" "a,b,value\n1,2" (by decide) (by decide) (by decide)

/-- Claim C9: every present field of every parsed row equals the raw source
field with whitespace stripped from both ends first and then any
leading/trailing characters from the quote set stripped; an absent (padded)
field stays absent and is not coerced to the empty string. -/
theorem parse_normalizes (text : String) (rows : List Row)
    (h : parse text = .ok rows) (i j : Nat) (rawFields : List String)
    (row : Row) (name : String)
    (hi : (dataFieldRows text).get? i = some rawFields)
    (hrow : rows.get? i = some row)
    (hj : (headerFields text).get? j = some name) :
    row.get? j = some (name, (rawFields.get? j).map cleanString) := by
  obtain ⟨hshape, _⟩ := parse_ok_shape text rows h
  rw [hshape, List.get?_map, hi] at hrow
  injection hrow with hrow
  rw [← hrow]
  exact makeRow_get _ _ _ _ hj

/-- Claim C9 witness: in the row parsed from `" 'p' ,2"` under header
`a,b,value`, column 0 is the source field `" 'p' "` normalized to `"p"`
(whitespace first, then quotes), and the padded column 2 stays absent. -/
theorem parse_normalizes_witness :
    ([("a", some "p"), ("b", some "2"), ("value", none)] : Row).get? 0
        = some ("a", some "p")
    ∧ ([("a", some "p"), ("b", some "2"), ("value", none)] : Row).get? 2
        = some ("value", none) := by
  have hA := parse_normalizes "a,b,value\n 'p' ,2"
      [[("a", some "p"), ("b", some "2"), ("value", none)]] (by decide)
      0 0 [" 'p' ", "2"] [("a", some "p"), ("b", some "2"), ("value", none)] "a"
      (by decide) (by decide) (by decide)
  have hB := parse_normalizes "a,b,value\n 'p' ,2"
      [[("a", some "p"), ("b", some "2"), ("value", none)]] (by decide)
      0 2 [" 'p' ", "2"] [("a", some "p"), ("b", some "2"), ("value", none)] "value"
      (by decide) (by decide) (by decide)
  refine ⟨?_, ?_⟩
  · rw [hA]
    decide
  · rw [hB]
    decide

end Spec2Proof
